import Mathlib

/-!
Verification of the CloudRift terraform driver (`driver.py`).

The Python source is shallowly embedded: strings are `List Char`
(written via `str`), paths are lists of segments, the process
environment is a partial map `List Char → Option (List Char)`,
external process outcomes are explicit parameters.  Fallible code
returns `Option`/`Except`.
-/

set_option maxRecDepth 4000

/-- Strings are modelled as lists of characters. -/
abbrev Str := List Char

/-- Coerce a Lean string literal to the `List Char` model. -/
def str (s : String) : Str := s.data

/-- Characters treated as whitespace by Python's `str.strip()`
(ASCII subset, which is all the driver ever feeds it). -/
def isPyWs (c : Char) : Bool :=
  c = ' ' || c = '\t' || c = '\n' || c = '\r' || c = '\x0b' || c = '\x0c'

/-- Remove leading whitespace (left part of Python `str.strip()`). -/
def trimLeftWs (s : Str) : Str := s.dropWhile isPyWs

/-- Remove trailing whitespace (right part of Python `str.strip()`). -/
def trimRightWs (s : Str) : Str := (s.reverse.dropWhile isPyWs).reverse

/-- Python `str.strip()`. -/
def pyStrip (s : Str) : Str := trimRightWs (trimLeftWs s)

/-- Python `sep.join(xs)`: interleave a separator between list elements. -/
def joinSep (sep : Str) : List Str → Str
  | [] => []
  | [l] => l
  | l :: ls => l ++ sep ++ joinSep sep ls

/-- `_strip_inline_comment_preserving_quotes`, inner loop: walk the
characters tracking `in_single`/`in_double`; stop at a `#` that is
outside any quotes (from `driver.py`). -/
def stripCommentAux (inSingle inDouble : Bool) : Str → Str
  | [] => []
  | c :: cs =>
    if c = '\'' && !inDouble then c :: stripCommentAux (!inSingle) inDouble cs
    else if c = '"' && !inSingle then c :: stripCommentAux inSingle (!inDouble) cs
    else if c = '#' && !inSingle && !inDouble then []
    else c :: stripCommentAux inSingle inDouble cs

/-- `_strip_inline_comment_preserving_quotes` from `driver.py`:
drop an unquoted inline comment, then `strip()` the result. -/
def strip_inline_comment_preserving_quotes (s : Str) : Str :=
  pyStrip (stripCommentAux false false s)

/-- `_unquote` from `driver.py`: strip whitespace, then remove one pair of
matching outer quotes when present. -/
def unquote (s0 : Str) : Str :=
  let s := pyStrip s0
  if 2 ≤ s.length ∧
      ((s.head? = some '"' ∧ s.getLast? = some '"') ∨
       (s.head? = some '\'' ∧ s.getLast? = some '\'')) then
    (s.drop 1).dropLast
  else s

/-- The value-normalization pipeline applied to the right-hand side of an
assignment in `_load_env_file`: comment stripping followed by unquoting. -/
def normalize_value (s : Str) : Str :=
  unquote (strip_inline_comment_preserving_quotes s)

/-- Characters allowed to start a Python identifier (`[A-Za-z_]`). -/
def isIdentStart (c : Char) : Bool :=
  ('A' ≤ c && c ≤ 'Z') || ('a' ≤ c && c ≤ 'z') || c = '_'

/-- Characters allowed inside a Python identifier (`[A-Za-z0-9_]`). -/
def isIdentChar (c : Char) : Bool :=
  isIdentStart c || ('0' ≤ c && c ≤ '9')

/-- The `py_like` regular expression
`^\s*([A-Za-z_][A-Za-z0-9_]*)\s*:\s*str\s*=\s*(.+?)\s*$` of
`_load_env_file`, as a function returning the two captured groups
(the second group is returned already `strip()`-ed, as the caller does). -/
def pyLikeMatch (line : Str) : Option (Str × Str) :=
  let l1 := trimLeftWs line
  match l1 with
  | [] => none
  | c :: _ =>
    if isIdentStart c then
      let ident := l1.takeWhile isIdentChar
      let r1 := trimLeftWs (l1.drop ident.length)
      match r1 with
      | ':' :: r2 =>
        let r3 := trimLeftWs r2
        if (str "str").isPrefixOf r3 then
          let r4 := trimLeftWs (r3.drop 3)
          match r4 with
          | '=' :: r5 => if r5 = [] then none else some (ident, pyStrip r5)
          | _ => none
        else none
      | _ => none
    else none

/-- Drop a leading `export ` prefix, case-insensitively, as
`_load_env_file` does with `line.lower().startswith("export ")`. -/
def dropExport (line : Str) : Str :=
  if (str "export ").isPrefixOf (line.map Char.toLower) then
    pyStrip (line.drop 7)
  else line

/-- Parse one line of the `.env` file, as the body of the loop in
`_load_env_file`: skip blanks and `#` comments, drop `export `, try the
annotated `NAME : str = VALUE` form, else split on the first `=`;
normalize the value. Returns `none` for lines that bind nothing. -/
def parse_env_line (raw : Str) : Option (Str × Str) :=
  let line := pyStrip raw
  if line = [] then none
  else if line.head? = some '#' then none
  else
    let line := dropExport line
    match pyLikeMatch line with
    | some (k, v) => some (k, normalize_value v)
    | none =>
      if line.any (· = '=') then
        some (pyStrip (line.takeWhile (· ≠ '=')),
              normalize_value (pyStrip ((line.dropWhile (· ≠ '=')).drop 1)))
      else none

/-- Python-dict insertion: overwrite the entry in place when the key is
already bound, otherwise append (preserving insertion order). -/
def dictInsert (d : List (Str × Str)) (k v : Str) : List (Str × Str) :=
  if d.any (fun p => p.1 = k) then
    d.map (fun p => if p.1 = k then (k, v) else p)
  else d ++ [(k, v)]

/-- Python-dict lookup on the association-list model. -/
def dictGet (d : List (Str × Str)) (k : Str) : Option Str :=
  (d.find? (fun p => p.1 = k)).map (·.2)

/-- `_load_env_file` from `driver.py`, with the file contents given as the
list of its lines: fold every parseable line into a dict. -/
def load_env_file (lines : List Str) : List (Str × Str) :=
  lines.foldl
    (fun d raw =>
      match parse_env_line raw with
      | some (k, v) => dictInsert d k v
      | none => d)
    []

/-- The Settings Record: the process-wide configuration loaded from `.env`
(the module-level globals of `driver.py`). -/
structure Settings where
  aws_region : Str
  aws_access_token : Str
  aws_secret_token : Str
  aws_session_token : Str
  account_id : Str
  owner : Str
  ec2_dns : Str
  devops_repo_url : Str
  backend_repo_url : Str
  frontend_repo_url : Str
  git_username : Str
  git_pat : Str
  smee_url : Str
  smee_target : Str
  smee_backend : Str
  smee_frontend : Str
  smee_devops : Str
deriving DecidableEq

/-- The inner `pick(*names)` of `_apply_env`: first alias whose value is
present and non-blank wins; the winning value is `strip()`-ed. -/
def pick (data : List (Str × Str)) : List Str → Str
  | [] => []
  | n :: rest =>
    match dictGet data n with
    | some v => if pyStrip v ≠ [] then pyStrip v else pick data rest
    | none => pick data rest

/-- The Settings Record assembled by `_apply_env` from the parsed data,
one `pick` per field with the alias lists of `driver.py`. -/
def settings_of_data (data : List (Str × Str)) : Settings where
  aws_region := pick data [str "AWS_REGION", str "aws_region"]
  aws_access_token :=
    pick data [str "AWS_ACCESS_TOKEN", str "aws_access_token", str "AWS_ACCESS", str "aws_access"]
  aws_secret_token :=
    pick data [str "AWS_SECRET_TOKEN", str "aws_secret_token", str "AWS_SECRET", str "aws_secret"]
  aws_session_token := pick data [str "AWS_SESSION_TOKEN", str "aws_session_token"]
  account_id := pick data [str "ACCOUNT_ID", str "account_id"]
  owner := pick data [str "OWNER", str "owner"]
  ec2_dns := pick data [str "ec2_dns"]
  devops_repo_url := pick data [str "DEVOPS_REPO_URL", str "devops_repo_url"]
  backend_repo_url :=
    pick data [str "BACKEND_REPO_URL", str "backend_repo_url", str "API_REPO_URL", str "api_repo_url"]
  frontend_repo_url := pick data [str "FRONTEND_REPO_URL", str "frontend_repo_url"]
  git_username := pick data [str "GITHUB_USER", str "GIT_USERNAME", str "git_username"]
  git_pat := pick data [str "GITHUB_PAT", str "GIT_PAT", str "git_pat"]
  smee_url := pick data [str "SMEE_URL", str "smee_url"]
  smee_target := pick data [str "SMEE_TARGET", str "smee_target"]
  smee_backend := pick data [str "SMEE_BACKEND", str "smee_backend"]
  smee_frontend := pick data [str "SMEE_FRONTEND", str "smee_frontend"]
  smee_devops := pick data [str "SMEE_DEVOPS", str "smee_devops"]

/-- The `missing` list built by `_apply_env`: one check per mandatory
field, in the source's order. -/
def missing_fields (data : List (Str × Str)) : List Str :=
  let s := settings_of_data data
  (if s.aws_region = [] then [str "AWS_REGION"] else []) ++
  (if s.aws_access_token = [] then [str "AWS_ACCESS_TOKEN"] else []) ++
  (if s.aws_secret_token = [] then [str "AWS_SECRET_TOKEN"] else []) ++
  (if s.account_id = [] then [str "ACCOUNT_ID"] else []) ++
  (if s.owner = [] then [str "OWNER"] else []) ++
  (if s.devops_repo_url = [] then [str "DEVOPS_REPO_URL"] else []) ++
  (if s.backend_repo_url = [] then [str "BACKEND_REPO_URL"] else []) ++
  (if s.frontend_repo_url = [] then [str "FRONTEND_REPO_URL"] else [])

/-- `_apply_env` from `driver.py`: build the Settings Record, raise a
`ValueError` naming every missing mandatory key, otherwise succeed. -/
def apply_env (data : List (Str × Str)) : Except Str Settings :=
  if missing_fields data ≠ [] then
    Except.error (str ".env is missing required keys: " ++
      joinSep (str ", ") (missing_fields data))
  else Except.ok (settings_of_data data)

/-- The table of mandatory fields used to state the validation claim:
error-message name paired with the alias list `_apply_env` picks from. -/
def mandatory_fields : List (Str × List Str) :=
  [(str "AWS_REGION", [str "AWS_REGION", str "aws_region"]),
   (str "AWS_ACCESS_TOKEN",
     [str "AWS_ACCESS_TOKEN", str "aws_access_token", str "AWS_ACCESS", str "aws_access"]),
   (str "AWS_SECRET_TOKEN",
     [str "AWS_SECRET_TOKEN", str "aws_secret_token", str "AWS_SECRET", str "aws_secret"]),
   (str "ACCOUNT_ID", [str "ACCOUNT_ID", str "account_id"]),
   (str "OWNER", [str "OWNER", str "owner"]),
   (str "DEVOPS_REPO_URL", [str "DEVOPS_REPO_URL", str "devops_repo_url"]),
   (str "BACKEND_REPO_URL",
     [str "BACKEND_REPO_URL", str "backend_repo_url", str "API_REPO_URL", str "api_repo_url"]),
   (str "FRONTEND_REPO_URL", [str "FRONTEND_REPO_URL", str "frontend_repo_url"])]

/-- One `key = "value"` line of a tfvars file. -/
def tfvar_line (key v : Str) : Str := key ++ str " = \"" ++ v ++ str "\""

/-- The `lines` list built by `_credentials_tfvars_content`:
ten mandatory lines in the source's order, then the two optional ones. -/
def cred_lines (s : Settings) : List Str :=
  ([tfvar_line (str "aws_access_key") s.aws_access_token,
    tfvar_line (str "aws_secret_key") s.aws_secret_token,
    tfvar_line (str "region") s.aws_region,
    tfvar_line (str "account_id") s.account_id,
    tfvar_line (str "owner") s.owner,
    tfvar_line (str "devops_repo_url") s.devops_repo_url,
    tfvar_line (str "backend_repo_url") s.backend_repo_url,
    tfvar_line (str "frontend_repo_url") s.frontend_repo_url,
    tfvar_line (str "git_username") s.git_username,
    tfvar_line (str "git_pat") s.git_pat] ++
   (if s.aws_session_token ≠ [] then [tfvar_line (str "aws_session_token") s.aws_session_token] else [])) ++
  (if s.ec2_dns ≠ [] then [tfvar_line (str "ec2_dns") s.ec2_dns] else [])

/-- `_credentials_tfvars_content` from `driver.py`:
`"\n".join(lines) + "\n"`. -/
def credentials_tfvars_content (s : Settings) : Str :=
  joinSep ['\n'] (cred_lines s) ++ ['\n']

/-- The Credential Overlay File contents as the spec words them: every
included line serialized as `key = "value"` terminated by a newline, the
optional session-token and DNS lines present exactly when non-empty. -/
def cred_content_spec (s : Settings) : Str :=
  tfvar_line (str "aws_access_key") s.aws_access_token ++ ['\n'] ++
  tfvar_line (str "aws_secret_key") s.aws_secret_token ++ ['\n'] ++
  tfvar_line (str "region") s.aws_region ++ ['\n'] ++
  tfvar_line (str "account_id") s.account_id ++ ['\n'] ++
  tfvar_line (str "owner") s.owner ++ ['\n'] ++
  tfvar_line (str "devops_repo_url") s.devops_repo_url ++ ['\n'] ++
  tfvar_line (str "backend_repo_url") s.backend_repo_url ++ ['\n'] ++
  tfvar_line (str "frontend_repo_url") s.frontend_repo_url ++ ['\n'] ++
  tfvar_line (str "git_username") s.git_username ++ ['\n'] ++
  tfvar_line (str "git_pat") s.git_pat ++ ['\n'] ++
  (if s.aws_session_token ≠ [] then
    tfvar_line (str "aws_session_token") s.aws_session_token ++ ['\n'] else []) ++
  (if s.ec2_dns ≠ [] then tfvar_line (str "ec2_dns") s.ec2_dns ++ ['\n'] else [])

/-- A filesystem path, as its segments relative to the repo root. -/
abbrev RPath := List Str

/-- The length of `str(path)`: segment lengths plus one separator per
segment (relative to a fixed root, which only shifts all lengths by the
same constant). -/
def strLenP (p : RPath) : Nat := (p.map List.length).sum + p.length

/-- First element minimizing `f`, as Python's `min(xs, key=f)` /
`sorted(xs, key=f)[0]` (stable: the first minimum wins). -/
def minByKey (f : α → Nat) : List α → Option α
  | [] => none
  | x :: xs => some (xs.foldl (fun b a => if f a < f b then a else b) x)

/-- Length of the shared leading segment run of two paths (the `common`
counter of `_path_distance`). -/
def commonLen : RPath → RPath → Nat
  | ap :: as', bp :: bs => if ap = bp then commonLen as' bs + 1 else 0
  | _, _ => 0

/-- `_path_distance` from `driver.py`: count of non-shared path segments
from both sides of the common prefix. -/
def path_distance (a b : RPath) : Nat :=
  (a.length - commonLen a b) + (b.length - commonLen a b)

/-- The `valid` filter of `_find_infra_dir`: exclude paths containing a
`.git`, `.terraform` or `node_modules` segment (case-insensitive). -/
def valid_path (p : RPath) : Bool :=
  !(p.any (fun seg =>
    seg.map Char.toLower = str ".git" ∨
    seg.map Char.toLower = str ".terraform" ∨
    seg.map Char.toLower = str "node_modules"))

/-- The `setup.sh` candidates of `_find_infra_dir`: `rglob` matches on the
filename, then the exclusion filter. -/
def setup_candidates (tree : List RPath) : List RPath :=
  (tree.filter (fun p => p.getLast? = some (str "setup.sh"))).filter valid_path

/-- The `destroy.sh` candidates of `_find_infra_dir`. -/
def destroy_candidates (tree : List RPath) : List RPath :=
  (tree.filter (fun p => p.getLast? = some (str "destroy.sh"))).filter valid_path

/-- The directories containing both scripts (`common` in
`_find_infra_dir`), in setup-candidate order. -/
def common_dirs (tree : List RPath) : List RPath :=
  ((setup_candidates tree).map (fun p => p.dropLast)).filter
    (fun d => d ∈ (destroy_candidates tree).map (fun p => p.dropLast))

/-- `_find_infra_dir` from `driver.py`, over a directory tree given as the
list of its file paths: returns the infra directory and the two script
paths, or the source's error message. -/
def find_infra_dir (tree : List RPath) : Except Str (RPath × RPath × RPath) :=
  match minByKey strLenP (setup_candidates tree),
        minByKey strLenP (destroy_candidates tree) with
  | none, _ => Except.error (str "Could not find setup.sh")
  | some _, none => Except.error (str "Could not find destroy.sh")
  | some s0, some _ =>
    match minByKey strLenP (common_dirs tree) with
    | some infra =>
      Except.ok (infra, infra ++ [str "setup.sh"], infra ++ [str "destroy.sh"])
    | none =>
      let infra := s0.dropLast
      match minByKey (fun d => path_distance infra d.dropLast) (destroy_candidates tree) with
      | some d => Except.ok (infra, s0, d)
      | none => Except.error (str "Could not find destroy.sh")

/-- The process environment, as a partial map from variable names. -/
abbrev Env := Str → Option Str

/-- `env.pop(k, None)` for the five conflicting credential variables. -/
def conflict_vars : List Str :=
  [str "AWS_ACCESS_KEY_ID", str "AWS_SECRET_ACCESS_KEY", str "AWS_SESSION_TOKEN",
   str "AWS_PROFILE", str "AWS_DEFAULT_PROFILE"]

/-- `env[k] = v` on the environment model. -/
def envSet (e : Env) (k v : Str) : Env :=
  fun q => if q = k then some v else e q

/-- `_clean_env_for_subprocess` from `driver.py`: copy the caller's
environment, drop the conflicting credential variables, then inject the
tool variables in the source's order. -/
def clean_env_for_subprocess (base : Env) (s : Settings) : Env :=
  let e0 : Env := fun k => if k ∈ conflict_vars then none else base k
  let e1 := envSet e0 (str "TF_IN_AUTOMATION") (str "1")
  let e2 := envSet e1 (str "TF_VAR_devops_repo_url") s.devops_repo_url
  let e3 := envSet e2 (str "TF_VAR_backend_repo_url") s.backend_repo_url
  let e4 := envSet e3 (str "TF_VAR_frontend_repo_url") s.frontend_repo_url
  let e5 := envSet e4 (str "TF_VAR_git_username") s.git_username
  let e6 := envSet e5 (str "TF_VAR_git_pat") s.git_pat
  let e7 := if s.ec2_dns ≠ [] then envSet e6 (str "TF_VAR_ec2_dns") s.ec2_dns else e6
  let e8 := envSet e7 (str "AWS_ACCESS_KEY_ID") s.aws_access_token
  let e9 := envSet e8 (str "SMEE_URL") s.smee_url
  let e10 := envSet e9 (str "SMEE_BACKEND") s.smee_backend
  let e11 := envSet e10 (str "SMEE_FRONTEND") s.smee_frontend
  let e12 := envSet e11 (str "SMEE_DEVOPS") s.smee_devops
  let e13 := envSet e12 (str "SMEE_TARGET") s.smee_target
  let e14 := envSet e13 (str "AWS_SECRET_ACCESS_KEY") s.aws_secret_token
  let e15 := if s.aws_session_token ≠ [] then
    envSet e14 (str "AWS_SESSION_TOKEN") s.aws_session_token else e14
  envSet e15 (str "AWS_DEFAULT_REGION") s.aws_region

/-- The environment actually handed to the subprocess by
`_run_bash_script`: the cleaned environment updated with the caller's
`extra_env` (`env.update(extra_env)`). -/
def run_env (base : Env) (s : Settings) (extra : List (Str × Str)) : Env :=
  extra.foldl (fun e p => envSet e p.1 p.2) (clean_env_for_subprocess base s)

/-- Last binding of a key in an override list (`dict.update` semantics). -/
def lastAssoc (ps : List (Str × Str)) (k : Str) : Option Str :=
  (ps.reverse.find? (fun p => p.1 = k)).map (·.2)

/-- The value the claim says is injected for each fixed tool variable
(`none` for a variable that is not injected). -/
def injected_value (s : Settings) (k : Str) : Option Str :=
  if k = str "TF_IN_AUTOMATION" then some (str "1")
  else if k = str "TF_VAR_devops_repo_url" then some s.devops_repo_url
  else if k = str "TF_VAR_backend_repo_url" then some s.backend_repo_url
  else if k = str "TF_VAR_frontend_repo_url" then some s.frontend_repo_url
  else if k = str "TF_VAR_git_username" then some s.git_username
  else if k = str "TF_VAR_git_pat" then some s.git_pat
  else if k = str "TF_VAR_ec2_dns" then (if s.ec2_dns ≠ [] then some s.ec2_dns else none)
  else if k = str "AWS_ACCESS_KEY_ID" then some s.aws_access_token
  else if k = str "SMEE_URL" then some s.smee_url
  else if k = str "SMEE_BACKEND" then some s.smee_backend
  else if k = str "SMEE_FRONTEND" then some s.smee_frontend
  else if k = str "SMEE_DEVOPS" then some s.smee_devops
  else if k = str "SMEE_TARGET" then some s.smee_target
  else if k = str "AWS_SECRET_ACCESS_KEY" then some s.aws_secret_token
  else if k = str "AWS_SESSION_TOKEN" then
    (if s.aws_session_token ≠ [] then some s.aws_session_token else none)
  else if k = str "AWS_DEFAULT_REGION" then some s.aws_region
  else none

/-- The subprocess environment as the claim describes it: caller
overrides win, then the injected tool variables, then the caller's
environment with the conflicting credential variables removed. -/
def spec_subprocess_env (base : Env) (s : Settings) (extra : List (Str × Str)) : Env :=
  fun k =>
    match lastAssoc extra k with
    | some v => some v
    | none =>
      match injected_value s k with
      | some v => some v
      | none => if k ∈ conflict_vars then none else base k

/-- `_run_bash_script` from `driver.py`, with the existence check and the
subprocess exit code as explicit inputs: raise when the script is
missing, raise naming the exit code when it is non-zero. -/
def run_bash_script (script_name : Str) (script_exists : Bool)
    (returncode : Int) : Except Str Unit :=
  if !script_exists then Except.error (str "Script not found: " ++ script_name)
  else if returncode ≠ 0 then
    Except.error (script_name ++ str " failed with exit code " ++ str (toString returncode))
  else Except.ok ()

/-- `_get_instance_id` from `driver.py`, with the `aws` binary presence
and the CLI result as explicit inputs: `None` when the binary is absent,
the exit code is non-zero, the output is blank, or the output is the
literal `None`; otherwise the stripped output. -/
def get_instance_id (aws_on_path : Bool) (returncode : Int) (stdout : Str) : Option Str :=
  if !aws_on_path then none
  else if returncode ≠ 0 then none
  else if pyStrip stdout = [] then none
  else if pyStrip stdout = str "None" then none
  else some (pyStrip stdout)

/-- The four external steps of `_stop_start_ec2`. -/
inductive Ec2Step where
  | stop_instances
  | wait_stopped
  | start_instances
  | wait_running
deriving DecidableEq

/-- Outcome of each external step of the stop-then-start sequence
(`True` = the CLI call returned exit code 0). -/
structure Ec2Outcome where
  stop_ok : Bool
  wait_stop_ok : Bool
  start_ok : Bool
  wait_run_ok : Bool

/-- Whether a given CLI step succeeds under a given outcome. -/
def stepOk (o : Ec2Outcome) : Ec2Step → Bool
  | Ec2Step.stop_instances => o.stop_ok
  | Ec2Step.wait_stopped => o.wait_stop_ok
  | Ec2Step.start_instances => o.start_ok
  | Ec2Step.wait_running => o.wait_run_ok

/-- The error report `_stop_start_ec2` prints when a given step fails. -/
def stepFailMsg : Ec2Step → Str
  | Ec2Step.stop_instances => str "Failed to stop instance"
  | Ec2Step.wait_stopped => str "Error while waiting for stop"
  | Ec2Step.start_instances => str "Failed to start instance"
  | Ec2Step.wait_running => str "Error while waiting for running"

/-- Run CLI steps in order, aborting after the first failure: the
early-return structure of `_stop_start_ec2`.  Returns the steps actually
issued and the failure report (`none` when all succeeded). -/
def run_seq (o : Ec2Outcome) : List Ec2Step → List Ec2Step × Option Str
  | [] => ([], none)
  | s :: rest =>
    if stepOk o s then
      let r := run_seq o rest
      (s :: r.1, r.2)
    else ([s], some (stepFailMsg s))

/-- The fixed step order of `_stop_start_ec2`. -/
def ec2StepOrder : List Ec2Step :=
  [Ec2Step.stop_instances, Ec2Step.wait_stopped, Ec2Step.start_instances,
   Ec2Step.wait_running]

/-- `_stop_start_ec2` from `driver.py`: the list of CLI steps actually
issued, and the failure report printed (`none` when the whole sequence
completed).  `found` is whether `_get_instance_id` located an instance,
`confirmed` the operator's answer to the confirmation prompt. -/
def stop_start_ec2 (found confirmed : Bool) (o : Ec2Outcome) :
    List Ec2Step × Option Str :=
  if !found then ([], some (str "No instance found for owner"))
  else if !confirmed then ([], some (str "Stop/Start cancelled."))
  else run_seq o ec2StepOrder

/-- Modelled from the spec: the General Variables File upsert of the
Overlay Writer normalizes line endings before operating on lines
(`driver.py` under `src/` only declares the `terraform.tfvars` target
path; the upsert routine itself is not in the packaged source).
Carriage returns are dropped, turning CRLF endings into LF. -/
def normalize_newlines (s : Str) : Str := s.filter (fun c => c ≠ '\r')

/-- Split a string on `'\n'` (separator semantics: `n` newlines give
`n + 1` lines, never the empty list). -/
def split_nl : Str → List Str
  | [] => [[]]
  | c :: cs =>
    if c = '\n' then [] :: split_nl cs
    else
      match split_nl cs with
      | [] => [[c]]
      | l :: ls => (c :: l) :: ls

/-- Join lines with `'\n'`. -/
def join_nl : List Str → Str := joinSep ['\n']

/-- Modelled from the spec: the line-anchored pattern match
`KEY = <value-or-token>` used by the upsert to locate the line to
replace — optional leading whitespace, the key, optional whitespace,
then `=` (the remainder, quoted value or bare token with an optional
trailing comment, is unconstrained). -/
def key_line_match (key line : Str) : Bool :=
  let l := line.dropWhile isPyWs
  key.isPrefixOf l && ((l.drop key.length).dropWhile isPyWs).head? = some '='

/-- Replace the first element satisfying `p`. -/
def replaceFirst (p : α → Bool) (new : α) : List α → List α
  | [] => []
  | x :: xs => if p x then new :: xs else x :: replaceFirst p new xs

/-- Modelled from the spec: the idempotent single-key upsert of the
Overlay Writer on the file's lines — replace the located line in place
when found, otherwise append a new `KEY = "VALUE"` line. -/
def upsert_lines (key v : Str) (ls : List Str) : List Str :=
  if ls.any (key_line_match key) then
    replaceFirst (key_line_match key) (tfvar_line key v) ls
  else ls ++ [tfvar_line key v]

/-- Modelled from the spec: the upsert operation on the General
Variables File (`terraform.tfvars`) content — read the existing content,
normalize line endings, upsert the key on the lines, write the lines
back. -/
def upsert_tfvars (key v : Str) (content : Str) : Str :=
  join_nl (upsert_lines key v (split_nl (normalize_newlines content)))

/-- The value bound by the last parseable line for a key — the
description the duplicate-key claim gives of the loader's result. -/
def last_parsed_value (lines : List Str) (k : Str) : Option Str :=
  (((lines.filterMap parse_env_line).filter (fun p => p.1 = k)).getLast?).map (·.2)

-- sanity checks on concrete inputs
example : normalize_value (str "\"a#b\"") = str "a#b" := by decide
example : upsert_tfvars (str "b") (str "9") (str "a = 1\nb = 2\nc = 3") =
    str "a = 1\nb = \"9\"\nc = 3" := by decide
example : upsert_tfvars (str "d") (str "4") (str "a = 1") =
    str "a = 1\nd = \"4\"" := by decide
example : upsert_tfvars (str "b") (str "9") (upsert_tfvars (str "b") (str "9") (str "a = 1\nb = 2")) =
    upsert_tfvars (str "b") (str "9") (str "a = 1\nb = 2") := by decide
example : normalize_value (str "x # comment") = str "x" := by decide
example : parse_env_line (str "KEY=\"a#b\"") = some (str "KEY", str "a#b") := by decide
example : parse_env_line (str "export OWNER = alice") = some (str "OWNER", str "alice") := by decide
example : parse_env_line (str "aws_region: str = \"us-east-1\"") =
    some (str "aws_region", str "us-east-1") := by decide
example : parse_env_line (str "# comment") = none := by decide

/-! ### Shared helper lemmas -/

lemma trimRightWs_eq_rdropWhile (s : Str) : trimRightWs s = List.rdropWhile isPyWs s := rfl

lemma mem_of_head?_some {l : List α} {c : α} (h : l.head? = some c) : c ∈ l := by
  cases l <;> simp_all

lemma mem_of_mem_pyStrip {c : Char} {l : Str} (h : c ∈ pyStrip l) : c ∈ l := by
  unfold pyStrip trimRightWs trimLeftWs at h
  rw [List.mem_reverse] at h
  have h2 := (List.dropWhile_sublist (l := (l.dropWhile isPyWs).reverse) isPyWs).subset h
  rw [List.mem_reverse] at h2
  exact (List.dropWhile_sublist isPyWs).subset h2

lemma pyStrip_head_not_ws {c : Char} {l : Str} (h : (pyStrip l).head? = some c) :
    isPyWs c = false := by
  unfold pyStrip at h
  rw [trimRightWs_eq_rdropWhile] at h
  cases hx : List.rdropWhile isPyWs (trimLeftWs l) with
  | nil => rw [hx] at h; simp at h
  | cons a as =>
    rw [hx] at h
    simp only [List.head?_cons, Option.some.injEq] at h
    obtain ⟨t, ht⟩ := List.rdropWhile_prefix (p := isPyWs) (l := trimLeftWs l)
    rw [hx] at ht
    have hl : l.dropWhile isPyWs = a :: (as ++ t) := by
      have := ht.symm
      simpa [trimLeftWs] using this
    have hmatch := List.head?_dropWhile_not isPyWs l
    rw [hl] at hmatch
    rw [← h]
    simpa using hmatch

lemma trimLeftWs_pyStrip (l : Str) : trimLeftWs (pyStrip l) = pyStrip l := by
  cases hx : pyStrip l with
  | nil => rfl
  | cons c cs =>
    have hc : isPyWs c = false := pyStrip_head_not_ws (by rw [hx]; rfl)
    show List.dropWhile isPyWs (c :: cs) = c :: cs
    simp [List.dropWhile_cons, hc]

lemma pyStrip_idem (l : Str) : pyStrip (pyStrip l) = pyStrip l := by
  conv_lhs => rw [pyStrip]
  rw [trimLeftWs_pyStrip, pyStrip, trimRightWs_eq_rdropWhile, trimRightWs_eq_rdropWhile,
    List.rdropWhile_idempotent]

/-! ### C4: value-normalization pipeline -/

lemma scaux_quote_free {s : Str} (h : ∀ c ∈ s, c ≠ '"' ∧ c ≠ '\'') :
    stripCommentAux false false s = s.takeWhile (fun c => c != '#') := by
  induction s with
  | nil => rfl
  | cons c cs ih =>
    obtain ⟨h1, h2⟩ := h c (List.mem_cons_self c cs)
    by_cases hh : c = '#'
    · subst hh
      simp [stripCommentAux, List.takeWhile_cons, h1, h2]
    · simp [stripCommentAux, List.takeWhile_cons, h1, h2, hh,
        ih (fun x hx => h x (List.mem_cons_of_mem c hx))]

lemma unquote_quote_free {t : Str} (h : ∀ c ∈ t, c ≠ '"' ∧ c ≠ '\'') :
    unquote t = pyStrip t := by
  unfold unquote
  rw [if_neg]
  rintro ⟨-, ⟨hq, -⟩ | ⟨hq, -⟩⟩
  · exact (h _ (mem_of_mem_pyStrip (mem_of_head?_some hq))).1 rfl
  · exact (h _ (mem_of_mem_pyStrip (mem_of_head?_some hq))).2 rfl

lemma normalize_value_quote_free {s : Str} (h : ∀ c ∈ s, c ≠ '"' ∧ c ≠ '\'') :
    normalize_value s = pyStrip (s.takeWhile (fun c => c != '#')) := by
  unfold normalize_value strip_inline_comment_preserving_quotes
  rw [scaux_quote_free h]
  rw [unquote_quote_free, pyStrip_idem]
  intro c hc
  have hc1 : c ∈ List.takeWhile (fun x => x != '#') s := mem_of_mem_pyStrip hc
  exact h c ((List.takeWhile_sublist _).subset hc1)

/-- C4 (counterexample): the value-normalization pipeline is not
idempotent on every input string: on `"a#b"` (quoted) one application
yields `a#b`, a second application truncates it to `a`. -/
theorem normalize_value_not_idempotent :
    ¬ ∀ s : Str, normalize_value (normalize_value s) = normalize_value s :=
  fun h => absurd (h (str "\"a#b\"")) (by decide)

/-- C4 (amended): the value-normalization pipeline (inline-comment
stripping followed by quote removal) is idempotent on every input string
that contains no quote character, and it preserves a `#` inside matching
quotes: parsing the line `KEY="a#b"` yields the value `a#b`. -/
theorem normalize_value_quote_free_idempotent_and_preserves_hash :
    (∀ s : Str, (∀ c ∈ s, c ≠ '"' ∧ c ≠ '\'') →
        normalize_value (normalize_value s) = normalize_value s) ∧
    parse_env_line (str "KEY=\"a#b\"") = some (str "KEY", str "a#b") := by
  constructor
  · intro s h
    rw [normalize_value_quote_free h]
    have hQF : ∀ c ∈ pyStrip (s.takeWhile (fun c => c != '#')), c ≠ '"' ∧ c ≠ '\'' := by
      intro c hc
      have hc1 : c ∈ List.takeWhile (fun x => x != '#') s := mem_of_mem_pyStrip hc
      exact h c ((List.takeWhile_sublist _).subset hc1)
    rw [normalize_value_quote_free hQF]
    have hhash : ∀ c ∈ pyStrip (s.takeWhile (fun x => x != '#')),
        (fun x => x != '#') c = true := by
      intro c hc
      have hc0 : c ∈ List.takeWhile (fun x => x != '#') s := mem_of_mem_pyStrip hc
      exact List.mem_takeWhile_imp (p := fun x => x != '#') hc0
    rw [List.takeWhile_eq_self_iff.mpr hhash]
    exact pyStrip_idem _
  · decide

/-- C4 (witness): the amended statement evaluated at concrete inputs. -/
theorem normalize_value_quote_free_idempotent_witness :
    normalize_value (normalize_value (str "abc # x")) = normalize_value (str "abc # x") ∧
    parse_env_line (str "KEY=\"a#b\"") = some (str "KEY", str "a#b") :=
  ⟨normalize_value_quote_free_idempotent_and_preserves_hash.1 (str "abc # x") (by decide),
   normalize_value_quote_free_idempotent_and_preserves_hash.2⟩

/-! ### C6: stop-then-start aborts on first failure -/

/-- C6: in the stop-then-start operation, a failing step means no later
step of the sequence is issued — in particular a stopped-wait failure
means the start command is never issued — the sequence completes without
a failure report exactly when every step succeeds, and no step is ever
retried (each appears at most once in the issued trace). -/
theorem stop_start_ec2_aborts_on_failure (found confirmed : Bool) (o : Ec2Outcome) :
    ((stop_start_ec2 found confirmed o).2 = none ↔
      found = true ∧ confirmed = true ∧ o.stop_ok = true ∧ o.wait_stop_ok = true ∧
      o.start_ok = true ∧ o.wait_run_ok = true) ∧
    (o.stop_ok = false →
      Ec2Step.wait_stopped ∉ (stop_start_ec2 found confirmed o).1 ∧
      Ec2Step.start_instances ∉ (stop_start_ec2 found confirmed o).1 ∧
      Ec2Step.wait_running ∉ (stop_start_ec2 found confirmed o).1) ∧
    (o.wait_stop_ok = false →
      Ec2Step.start_instances ∉ (stop_start_ec2 found confirmed o).1 ∧
      Ec2Step.wait_running ∉ (stop_start_ec2 found confirmed o).1) ∧
    (o.start_ok = false → Ec2Step.wait_running ∉ (stop_start_ec2 found confirmed o).1) ∧
    (stop_start_ec2 found confirmed o).1.Nodup := by
  obtain ⟨s1, s2, s3, s4⟩ := o
  cases found <;> cases confirmed <;> cases s1 <;> cases s2 <;> cases s3 <;> cases s4 <;>
    decide

/-- C6 (witness): with the stopped-wait step failing, the start command
is never issued and a failure is reported. -/
theorem stop_start_ec2_aborts_witness :
    Ec2Step.start_instances ∉ (stop_start_ec2 true true ⟨true, false, true, true⟩).1 ∧
    Ec2Step.wait_running ∉ (stop_start_ec2 true true ⟨true, false, true, true⟩).1 ∧
    ¬ (stop_start_ec2 true true ⟨true, false, true, true⟩).2 = none := by
  have T := stop_start_ec2_aborts_on_failure true true ⟨true, false, true, true⟩
  exact ⟨(T.2.2.1 rfl).1, (T.2.2.1 rfl).2, fun h => by simpa using (T.1.mp h).2.2.2.1⟩

/-! ### C8: process runner surfaces the exit code -/

/-- C8: a script execution by the process runner succeeds exactly when
the subprocess exit code is zero; for every non-zero exit code it fails
with an error whose message surfaces that exit code. -/
theorem run_bash_script_success_iff_exit_zero (script_name : Str) (rc : Int) :
    (run_bash_script script_name true rc = Except.ok () ↔ rc = 0) ∧
    (rc ≠ 0 → ∃ pre, run_bash_script script_name true rc =
      Except.error (pre ++ str (toString rc))) := by
  constructor
  · by_cases h : rc = 0 <;> simp [run_bash_script, h]
  · intro h
    exact ⟨script_name ++ str " failed with exit code ", by simp [run_bash_script, h]⟩

/-- C8 (witness): exit code 2 of `setup.sh` fails and is surfaced. -/
theorem run_bash_script_exit_two_witness :
    (run_bash_script (str "setup.sh") true 2 = Except.ok () ↔ (2 : Int) = 0) ∧
    (∃ pre, run_bash_script (str "setup.sh") true 2 =
      Except.error (pre ++ str (toString (2 : Int)))) :=
  ⟨(run_bash_script_success_iff_exit_zero (str "setup.sh") 2).1,
   (run_bash_script_success_iff_exit_zero (str "setup.sh") 2).2 (by decide)⟩

/-! ### C9: instance lookup is total and never aggregates -/

/-- C9: instance lookup returns a not-found result — never an
exception — when the CLI binary is absent, the CLI exits non-zero, the
output is blank, or the query matched zero instances (the CLI prints the
literal `None`); otherwise it returns the single stripped instance
identifier. -/
theorem get_instance_id_total_lookup (aws : Bool) (rc : Int) (out : Str) :
    (aws = false → get_instance_id aws rc out = none) ∧
    (rc ≠ 0 → get_instance_id aws rc out = none) ∧
    (pyStrip out = [] → get_instance_id aws rc out = none) ∧
    (pyStrip out = str "None" → get_instance_id aws rc out = none) ∧
    (aws = true → rc = 0 → pyStrip out ≠ [] → pyStrip out ≠ str "None" →
      get_instance_id aws rc out = some (pyStrip out)) := by
  refine ⟨fun h => by simp [get_instance_id, h], fun h => ?_, fun h => ?_, fun h => ?_,
    fun h1 h2 h3 h4 => by simp [get_instance_id, h1, h2, h3, h4]⟩
  · cases aws <;> simp [get_instance_id, h]
  · cases aws <;> by_cases hrc : rc = 0 <;> simp [get_instance_id, h, hrc]
  · have e1 : ¬ (str "None" = ([] : Str)) := by decide
    cases aws <;> by_cases hrc : rc = 0 <;> simp [get_instance_id, h, hrc, e1]

/-- C9 (witness): the zero-match fixture — the CLI exits 0 printing
`None` — yields a not-found result, and a missing CLI yields the same. -/
theorem get_instance_id_total_witness :
    get_instance_id true 0 (str "None\n") = none ∧
    get_instance_id false 0 (str "i-0abc") = none :=
  ⟨(get_instance_id_total_lookup true 0 (str "None\n")).2.2.2.1 (by decide),
   (get_instance_id_total_lookup false 0 (str "i-0abc")).1 rfl⟩

/-! ### C3: credential overlay file format -/

lemma ne_append_of_zip_ne {k1 k2 : Str} (a b : Str)
    (h : (k1.zip k2).any (fun p => p.1 != p.2) = true) : k1 ++ a ≠ k2 ++ b := by
  induction k1 generalizing k2 with
  | nil => simp at h
  | cons c1 t1 ih =>
    cases k2 with
    | nil => simp at h
    | cons c2 t2 =>
      simp only [List.zip_cons_cons, List.any_cons, Bool.or_eq_true] at h
      intro he
      simp only [List.cons_append, List.cons.injEq] at he
      rcases h with h' | h'
      · simp only [bne_iff_ne, ne_eq] at h'
        exact h' he.1
      · exact @ih t2 h' he.2

lemma tfvar_line_eq (k v : Str) : tfvar_line k v = k ++ (str " = \"" ++ (v ++ str "\"")) := by
  simp [tfvar_line, List.append_assoc]

lemma tfvar_line_ne {k1 k2 : Str} (h : (k1.zip k2).any (fun p => p.1 != p.2) = true)
    (v1 v2 : Str) : tfvar_line k1 v1 ≠ tfvar_line k2 v2 := by
  rw [tfvar_line_eq, tfvar_line_eq]
  exact ne_append_of_zip_ne _ _ h

lemma session_line_mem_iff (s : Settings) :
    tfvar_line (str "aws_session_token") s.aws_session_token ∈ cred_lines s ↔
      s.aws_session_token ≠ [] := by
  refine ⟨fun hmem => ?_, fun h1 => ?_⟩
  · by_contra h1
    rw [h1] at hmem
    by_cases h2 : s.ec2_dns = []
    · simp [cred_lines, h1, h2] at hmem
      rcases hmem with h | h | h | h | h | h | h | h | h | h <;>
        exact tfvar_line_ne (by decide) _ _ h
    · simp [cred_lines, h1, h2] at hmem
      rcases hmem with h | h | h | h | h | h | h | h | h | h | h <;>
        exact tfvar_line_ne (by decide) _ _ h
  · simp [cred_lines, h1, List.mem_append]

lemma dns_line_mem_iff (s : Settings) :
    tfvar_line (str "ec2_dns") s.ec2_dns ∈ cred_lines s ↔ s.ec2_dns ≠ [] := by
  refine ⟨fun hmem => ?_, fun h1 => ?_⟩
  · by_contra h1
    rw [h1] at hmem
    by_cases h2 : s.aws_session_token = []
    · simp [cred_lines, h1, h2] at hmem
      rcases hmem with h | h | h | h | h | h | h | h | h | h <;>
        exact tfvar_line_ne (by decide) _ _ h
    · simp [cred_lines, h1, h2] at hmem
      rcases hmem with h | h | h | h | h | h | h | h | h | h | h <;>
        exact tfvar_line_ne (by decide) _ _ h
  · simp [cred_lines, h1, List.mem_append]

/-- C3: the generated Credential Overlay File content consists of the ten
mandatory `key = "value"` lines in the fixed order, omits the
`aws_session_token` line exactly when the session token is empty and the
`ec2_dns` line exactly when the DNS override is empty, and always ends
with a trailing newline. -/
theorem credentials_tfvars_content_fixed_format (s : Settings) :
    credentials_tfvars_content s = cred_content_spec s ∧
    (credentials_tfvars_content s).getLast? = some '\n' ∧
    (tfvar_line (str "aws_session_token") s.aws_session_token ∈ cred_lines s ↔
      s.aws_session_token ≠ []) ∧
    (tfvar_line (str "ec2_dns") s.ec2_dns ∈ cred_lines s ↔ s.ec2_dns ≠ []) := by
  refine ⟨?_, ?_, session_line_mem_iff s, dns_line_mem_iff s⟩
  · by_cases h1 : s.aws_session_token = [] <;> by_cases h2 : s.ec2_dns = [] <;>
      simp [credentials_tfvars_content, cred_content_spec, cred_lines, joinSep, h1, h2,
        List.append_assoc]
  · exact List.getLast?_concat _

/-! ### C5: validation enumerates every missing mandatory field -/

lemma flatten_ite_filter (data : List (Str × Str)) :
    ∀ tbl : List (Str × List Str),
      (tbl.map (fun pr => if pick data pr.2 = [] then [pr.1] else [])).flatten =
      (tbl.filter (fun pr => pick data pr.2 = [])).map Prod.fst
  | [] => rfl
  | pr :: rest => by
    by_cases h : pick data pr.2 = [] <;>
      simp [List.filter_cons, h, flatten_ite_filter data rest]

lemma mem_joinSep_parts {x : Str} {xs : List Str} (sep : Str) (h : x ∈ xs) :
    ∃ pre post, joinSep sep xs = pre ++ x ++ post := by
  induction xs with
  | nil => cases h
  | cons l ls ih =>
    rcases List.mem_cons.mp h with rfl | h'
    · cases ls with
      | nil => exact ⟨[], [], by simp [joinSep]⟩
      | cons y ys =>
        exact ⟨[], sep ++ joinSep sep (y :: ys), by simp [joinSep, List.append_assoc]⟩
    · cases ls with
      | nil => cases h'
      | cons y ys =>
        obtain ⟨pre, post, hp⟩ := ih h'
        exact ⟨l ++ sep ++ pre, post, by simp [joinSep, hp, List.append_assoc]⟩

/-- C5: loading succeeds exactly when no mandatory field resolves to
empty; the missing list collects exactly the mandatory fields whose
alias lookup is empty, in fixed order; and the single error message
names every one of them. -/
theorem apply_env_reports_all_missing (data : List (Str × Str)) :
    ((∃ s, apply_env data = Except.ok s) ↔ missing_fields data = []) ∧
    missing_fields data =
      (mandatory_fields.filter (fun pr => pick data pr.2 = [])).map Prod.fst ∧
    (∀ name ∈ missing_fields data,
      ∃ pre post, apply_env data = Except.error (pre ++ name ++ post)) := by
  refine ⟨?_, ?_, ?_⟩
  · by_cases hm : missing_fields data = [] <;> simp [apply_env, hm]
  · rw [← flatten_ite_filter data mandatory_fields]
    simp [missing_fields, mandatory_fields, settings_of_data, List.append_assoc]
  · intro name hname
    have hne : missing_fields data ≠ [] := List.ne_nil_of_mem hname
    obtain ⟨pre, post, hp⟩ := mem_joinSep_parts (str ", ") hname
    exact ⟨str ".env is missing required keys: " ++ pre, post,
      by simp [apply_env, hne, hp, List.append_assoc]⟩

/-- C5 (witness): a source missing `OWNER` and `FRONTEND_REPO_URL` fails
with one message naming both. -/
theorem apply_env_reports_all_missing_witness :
    (∃ pre post, apply_env
      [(str "AWS_REGION", str "us-east-1"), (str "AWS_ACCESS_TOKEN", str "AK"),
       (str "AWS_SECRET_TOKEN", str "SK"), (str "ACCOUNT_ID", str "1"),
       (str "DEVOPS_REPO_URL", str "u1"), (str "BACKEND_REPO_URL", str "u2")] =
      Except.error (pre ++ str "OWNER" ++ post)) ∧
    (∃ pre post, apply_env
      [(str "AWS_REGION", str "us-east-1"), (str "AWS_ACCESS_TOKEN", str "AK"),
       (str "AWS_SECRET_TOKEN", str "SK"), (str "ACCOUNT_ID", str "1"),
       (str "DEVOPS_REPO_URL", str "u1"), (str "BACKEND_REPO_URL", str "u2")] =
      Except.error (pre ++ str "FRONTEND_REPO_URL" ++ post)) :=
  ⟨(apply_env_reports_all_missing _).2.2 (str "OWNER") (by decide),
   (apply_env_reports_all_missing _).2.2 (str "FRONTEND_REPO_URL") (by decide)⟩

/-! ### C7: subprocess environment -/

lemma lastAssoc_nil (k : Str) : lastAssoc [] k = none := rfl

lemma lastAssoc_cons (p : Str × Str) (ps : List (Str × Str)) (k : Str) :
    lastAssoc (p :: ps) k =
      (lastAssoc ps k).or (if p.1 = k then some p.2 else none) := by
  unfold lastAssoc
  rw [List.reverse_cons, List.find?_append]
  cases h : (ps.reverse.find? (fun q => q.1 = k)) with
  | none =>
    simp only [h, Option.map_none', Option.none_or, Option.or_none]
    by_cases hp : p.1 = k <;> simp [List.find?, hp]
  | some q => simp [h]

lemma foldl_envSet_get (extra : List (Str × Str)) :
    ∀ (e : Env) (k : Str),
      (extra.foldl (fun e p => envSet e p.1 p.2) e) k = (lastAssoc extra k).or (e k) := by
  induction extra with
  | nil => intro e k; simp [lastAssoc_nil]
  | cons p ps ih =>
    intro e k
    rw [List.foldl_cons, ih, lastAssoc_cons, Option.or_assoc]
    congr 1
    by_cases hp : p.1 = k <;> simp [envSet, hp]
    · intro h; exact absurd h.symm hp

lemma clean_env_core (base : Env) (s : Settings) (k : Str) :
    clean_env_for_subprocess base s k =
      match injected_value s k with
      | some v => some v
      | none => if k ∈ conflict_vars then none else base k := by
  by_cases hk : k ∈ [str "TF_IN_AUTOMATION", str "TF_VAR_devops_repo_url",
      str "TF_VAR_backend_repo_url", str "TF_VAR_frontend_repo_url",
      str "TF_VAR_git_username", str "TF_VAR_git_pat", str "TF_VAR_ec2_dns",
      str "AWS_ACCESS_KEY_ID", str "SMEE_URL", str "SMEE_BACKEND", str "SMEE_FRONTEND",
      str "SMEE_DEVOPS", str "SMEE_TARGET", str "AWS_SECRET_ACCESS_KEY",
      str "AWS_SESSION_TOKEN", str "AWS_DEFAULT_REGION", str "AWS_PROFILE",
      str "AWS_DEFAULT_PROFILE"]
  · simp only [List.mem_cons, List.not_mem_nil, or_false] at hk
    by_cases hd : s.ec2_dns = [] <;> by_cases hs : s.aws_session_token = [] <;>
      rcases hk with rfl | rfl | rfl | rfl | rfl | rfl | rfl | rfl | rfl | rfl | rfl |
        rfl | rfl | rfl | rfl | rfl | rfl | rfl <;>
      simp [clean_env_for_subprocess, injected_value, hd, hs] <;> rfl
  · simp only [List.mem_cons, List.not_mem_nil, or_false, not_or] at hk
    obtain ⟨n1, n2, n3, n4, n5, n6, n7, n8, n9, n10, n11, n12, n13, n14, n15, n16,
      n17, n18⟩ := hk
    by_cases hd : s.ec2_dns = [] <;> by_cases hs : s.aws_session_token = [] <;>
      simp [clean_env_for_subprocess, injected_value, envSet, conflict_vars, hd, hs,
        n1, n2, n3, n4, n5, n6, n7, n8, n9, n10, n11, n12, n13, n14, n15, n16, n17, n18]

/-- C7: the environment handed to a subprocess equals the caller's
environment with the five conflicting cloud-credential variables removed
first, then the fixed tool variables injected, then the caller-supplied
operation-specific overrides applied last; every other variable passes
through unchanged. -/
theorem run_env_matches_spec (base : Env) (s : Settings) (extra : List (Str × Str))
    (k : Str) : run_env base s extra k = spec_subprocess_env base s extra k := by
  rw [run_env, foldl_envSet_get extra (clean_env_for_subprocess base s) k]
  rw [spec_subprocess_env]
  cases h : lastAssoc extra k with
  | some v => simp [h]
  | none => simp only [h, Option.none_or]; exact clean_env_core base s k

/-! ### C10: duplicate keys — last parseable line wins -/

lemma dictGet_cons (p : Str × Str) (rest : List (Str × Str)) (q : Str) :
    dictGet (p :: rest) q = if p.1 = q then some p.2 else dictGet rest q := by
  by_cases h : p.1 = q
  · rw [dictGet, List.find?_cons_of_pos _ (by simpa using h), if_pos h]
    rfl
  · rw [dictGet, List.find?_cons_of_neg _ (by simpa using h), if_neg h]
    rfl

lemma dictGet_map_ne (k v q : Str) (hq : q ≠ k) : ∀ d : List (Str × Str),
    dictGet (d.map (fun p => if p.1 = k then (k, v) else p)) q = dictGet d q := by
  intro d
  induction d with
  | nil => rfl
  | cons p rest ih =>
    rw [List.map_cons, dictGet_cons, dictGet_cons]
    by_cases hp : p.1 = k
    · have hkq : ¬(k = q) := fun h => hq h.symm
      have hpq : ¬(p.1 = q) := by rw [hp]; exact hkq
      rw [if_pos hp, if_neg (show ¬((k, v).1 = q) from hkq), if_neg hpq, ih]
    · rw [if_neg hp]
      by_cases hpq : p.1 = q
      · rw [if_pos hpq, if_pos hpq]
      · rw [if_neg hpq, if_neg hpq, ih]

lemma dictGet_map_self (k v : Str) : ∀ d : List (Str × Str),
    d.any (fun p => p.1 = k) = true →
    dictGet (d.map (fun p => if p.1 = k then (k, v) else p)) k = some v := by
  intro d
  induction d with
  | nil => intro h; simp at h
  | cons p rest ih =>
    intro h
    rw [List.map_cons, dictGet_cons]
    by_cases hp : p.1 = k
    · rw [if_pos hp, if_pos (show (k, v).1 = k from rfl)]
    · have hrest : rest.any (fun p => p.1 = k) = true := by
        simp only [List.any_cons, Bool.or_eq_true] at h
        rcases h with h | h
        · exact absurd (of_decide_eq_true h) hp
        · exact h
      rw [if_neg hp, if_neg hp, ih hrest]

lemma dictGet_dictInsert (d : List (Str × Str)) (k v q : Str) :
    dictGet (dictInsert d k v) q = if q = k then some v else dictGet d q := by
  by_cases hany : d.any (fun p => p.1 = k)
  · rw [dictInsert, if_pos hany]
    by_cases hq : q = k
    · subst hq
      rw [dictGet_map_self _ v d hany, if_pos rfl]
    · rw [dictGet_map_ne k v q hq d, if_neg hq]
  · rw [dictInsert, if_neg hany]
    by_cases hq : q = k
    · subst hq
      have hnone : d.find? (fun p => p.1 = q) = none := by
        rw [List.find?_eq_none]
        intro x hx hxq
        exact hany (List.any_eq_true.mpr ⟨x, hx, by simpa using hxq⟩)
      rw [dictGet, List.find?_append, hnone]
      simp [List.find?]
    · have hkq : ¬(k = q) := fun h => hq h.symm
      have hsing : List.find? (fun p => p.1 = q) [(k, v)] = none := by
        simp [List.find?, hkq]
      rw [dictGet, List.find?_append, hsing, if_neg hq]
      simp [dictGet]

lemma getLast?_cons_or (a : α) (l : List α) :
    (a :: l).getLast? = l.getLast?.or (some a) := by
  induction l generalizing a with
  | nil => rfl
  | cons b t ih =>
    rw [List.getLast?_cons_cons, ih b, Option.or_assoc]
    simp

lemma map_option_or (f : α → β) (x y : Option α) :
    (x.or y).map f = (x.map f).or (y.map f) := by
  cases x <;> simp

lemma load_env_aux (lines : List Str) : ∀ (d : List (Str × Str)) (k : Str),
    dictGet (lines.foldl
      (fun d raw =>
        match parse_env_line raw with
        | some (k, v) => dictInsert d k v
        | none => d) d) k =
    (last_parsed_value lines k).or (dictGet d k) := by
  induction lines with
  | nil => intro d k; simp [last_parsed_value]
  | cons raw rest ih =>
    intro d k
    rw [List.foldl_cons]
    cases hp : parse_env_line raw with
    | none =>
      simp only [hp]
      rw [ih d k]
      simp [last_parsed_value, List.filterMap_cons, hp]
    | some kv =>
      obtain ⟨k', v⟩ := kv
      simp only [hp]
      rw [ih (dictInsert d k' v) k, dictGet_dictInsert]
      by_cases hk : k' = k
      · subst hk
        simp only [last_parsed_value, List.filterMap_cons, hp, List.filter_cons,
          decide_eq_true_eq, eq_self_iff_true, if_true]
        rw [getLast?_cons_or, map_option_or, Option.or_assoc]
        simp
      · have hk2 : ¬(k = k') := fun h => hk h.symm
        simp [last_parsed_value, List.filterMap_cons, hp, List.filter_cons, hk, hk2]

/-- C10: when the same key appears on multiple parseable lines of the
configuration source, the loader's resulting mapping holds the value
from the last such line — later occurrences overwrite earlier ones. -/
theorem load_env_file_last_duplicate_wins (lines : List Str) (k : Str) :
    dictGet (load_env_file lines) k = last_parsed_value lines k := by
  have h := load_env_aux lines [] k
  simpa [load_env_file, dictGet] using h

/-! ### C1: idempotent upsert on the General Variables File -/

lemma split_nl_ne_nil : ∀ s : Str, split_nl s ≠ [] := by
  intro s
  induction s with
  | nil => simp [split_nl]
  | cons c cs ih =>
    by_cases hc : c = '\n'
    · simp [split_nl, hc]
    · simp only [split_nl, if_neg hc]
      cases hs : split_nl cs with
      | nil => simp
      | cons l ls => simp

lemma mem_split_nl : ∀ (s : Str) (l : Str), l ∈ split_nl s → ∀ c ∈ l, c ∈ s ∧ c ≠ '\n' := by
  intro s
  induction s with
  | nil =>
    intro l hl c hc
    simp [split_nl] at hl
    subst hl
    cases hc
  | cons a s' ih =>
    intro l hl c hc
    by_cases ha : a = '\n'
    · rw [split_nl, if_pos ha] at hl
      rcases List.mem_cons.mp hl with rfl | hl'
      · cases hc
      · obtain ⟨h1, h2⟩ := ih l hl' c hc
        exact ⟨List.mem_cons_of_mem a h1, h2⟩
    · rw [split_nl, if_neg ha] at hl
      cases hs : split_nl s' with
      | nil => exact absurd hs (split_nl_ne_nil s')
      | cons l0 ls =>
        rw [hs] at hl
        rcases List.mem_cons.mp hl with rfl | hl'
        · rcases List.mem_cons.mp hc with rfl | hc'
          · exact ⟨List.mem_cons_self c s', ha⟩
          · obtain ⟨h1, h2⟩ := ih l0 (by rw [hs]; exact List.mem_cons_self l0 ls) c hc'
            exact ⟨List.mem_cons_of_mem a h1, h2⟩
        · obtain ⟨h1, h2⟩ := ih l (by rw [hs]; exact List.mem_cons_of_mem l0 hl') c hc
          exact ⟨List.mem_cons_of_mem a h1, h2⟩

lemma split_nl_no_nl {l : Str} (h : '\n' ∉ l) : split_nl l = [l] := by
  induction l with
  | nil => rfl
  | cons c cs ih =>
    have hc : ¬(c = '\n') := fun he => h (he ▸ List.mem_cons_self c cs)
    rw [split_nl, if_neg hc, ih (fun hm => h (List.mem_cons_of_mem c hm))]

lemma split_nl_append {l : Str} (t : Str) (h : '\n' ∉ l) :
    split_nl (l ++ '\n' :: t) = l :: split_nl t := by
  induction l with
  | nil => simp [split_nl]
  | cons c cs ih =>
    have hc : ¬(c = '\n') := fun he => h (he ▸ List.mem_cons_self c cs)
    rw [List.cons_append, split_nl, if_neg hc,
      ih (fun hm => h (List.mem_cons_of_mem c hm))]

lemma split_join_nl : ∀ ls : List Str, ls ≠ [] → (∀ l ∈ ls, '\n' ∉ l) →
    split_nl (join_nl ls) = ls := by
  intro ls
  induction ls with
  | nil => intro h; cases h rfl
  | cons l rest ih =>
    intro _ hnl
    cases rest with
    | nil => exact split_nl_no_nl (hnl l (List.mem_cons_self l []))
    | cons l2 rest' =>
      have : join_nl (l :: l2 :: rest') = l ++ '\n' :: join_nl (l2 :: rest') := by
        simp [join_nl, joinSep]
      rw [this, split_nl_append _ (hnl l (List.mem_cons_self l _)),
        ih (by simp) (fun x hx => hnl x (List.mem_cons_of_mem l hx))]

lemma replaceFirst_idem {p : α → Bool} {new : α} (hp : p new = true) :
    ∀ l : List α, replaceFirst p new (replaceFirst p new l) = replaceFirst p new l := by
  intro l
  induction l with
  | nil => rfl
  | cons x xs ih =>
    by_cases hx : p x
    · rw [replaceFirst, if_pos hx, replaceFirst, if_pos hp]
    · rw [replaceFirst, if_neg hx, replaceFirst, if_neg hx, ih]

lemma replaceFirst_append_no_match {p : α → Bool} {new : α} (hp : p new = true) :
    ∀ l : List α, (∀ x ∈ l, p x = false) →
      replaceFirst p new (l ++ [new]) = l ++ [new] := by
  intro l
  induction l with
  | nil => simp [replaceFirst, hp]
  | cons x xs ih =>
    intro hall
    have hx : ¬(p x = true) := by
      rw [hall x (List.mem_cons_self x xs)]
      simp
    rw [List.cons_append, replaceFirst, if_neg hx,
      ih (fun y hy => hall y (List.mem_cons_of_mem x hy))]

lemma replaceFirst_any {p : α → Bool} {new : α} (hp : p new = true) :
    ∀ l : List α, l.any p = true → (replaceFirst p new l).any p = true := by
  intro l
  induction l with
  | nil => intro h; simp at h
  | cons x xs ih =>
    intro h
    by_cases hx : p x
    · rw [replaceFirst, if_pos hx]
      simp [hp]
    · rw [replaceFirst, if_neg hx]
      simp only [List.any_cons, Bool.or_eq_true] at h ⊢
      rcases h with h | h
      · exact absurd h hx
      · exact Or.inr (ih h)

lemma replaceFirst_eq_set {p : α → Bool} {new : α} :
    ∀ l : List α, l.any p = true →
      replaceFirst p new l = l.set (l.findIdx p) new := by
  intro l
  induction l with
  | nil => intro h; simp at h
  | cons x xs ih =>
    intro h
    by_cases hx : p x
    · rw [replaceFirst, if_pos hx, List.findIdx_cons]
      simp [hx]
    · rw [replaceFirst, if_neg hx, List.findIdx_cons]
      have hxs : xs.any p = true := by
        simp only [List.any_cons, Bool.or_eq_true] at h
        rcases h with h | h
        · exact absurd h hx
        · exact h
      simp only [show p x = false by simpa using hx, Bool.cond_false]
      rw [List.set_cons_succ, ih hxs]

lemma isPrefixOf_append_self : ∀ (k r : Str), k.isPrefixOf (k ++ r) = true := by
  intro k r
  induction k with
  | nil => simp [List.isPrefixOf]
  | cons c t ih => simp [List.isPrefixOf, ih]

lemma key_line_match_tfvar (key v : Str) (hkey : key ≠ [])
    (hws : ∀ c ∈ key, isPyWs c = false) :
    key_line_match key (tfvar_line key v) = true := by
  cases key with
  | nil => cases hkey rfl
  | cons c t =>
    have hc : isPyWs c = false := hws c (List.mem_cons_self c t)
    rw [key_line_match, tfvar_line_eq]
    have hdw : List.dropWhile isPyWs ((c :: t) ++ (str " = \"" ++ (v ++ str "\""))) =
        (c :: t) ++ (str " = \"" ++ (v ++ str "\"")) := by
      rw [List.cons_append, List.dropWhile_cons_of_neg (by simp [hc])]
    rw [hdw]
    rw [Bool.and_eq_true]
    constructor
    · exact isPrefixOf_append_self _ _
    · rw [List.drop_left]
      rfl

lemma mem_upsert_lines {key v : Str} {x : Str} :
    ∀ ls : List Str, x ∈ upsert_lines key v ls → x ∈ ls ∨ x = tfvar_line key v := by
  have hrf : ∀ l : List Str, x ∈ replaceFirst (key_line_match key) (tfvar_line key v) l →
      x ∈ l ∨ x = tfvar_line key v := by
    intro l
    induction l with
    | nil => intro h; cases h
    | cons y ys ih =>
      intro h
      by_cases hy : key_line_match key y
      · rw [replaceFirst, if_pos hy] at h
        rcases List.mem_cons.mp h with rfl | h'
        · exact Or.inr rfl
        · exact Or.inl (List.mem_cons_of_mem y h')
      · rw [replaceFirst, if_neg hy] at h
        rcases List.mem_cons.mp h with rfl | h'
        · exact Or.inl (List.mem_cons_self x ys)
        · rcases ih h' with h2 | h2
          · exact Or.inl (List.mem_cons_of_mem y h2)
          · exact Or.inr h2
  intro ls h
  rw [upsert_lines] at h
  by_cases hany : ls.any (key_line_match key)
  · rw [if_pos hany] at h
    exact hrf ls h
  · rw [if_neg hany] at h
    rcases List.mem_append.mp h with h' | h'
    · exact Or.inl h'
    · simp only [List.mem_singleton] at h'
      exact Or.inr h'

lemma upsert_lines_ne_nil {key v : Str} {ls : List Str} (h : ls ≠ []) :
    upsert_lines key v ls ≠ [] := by
  rw [upsert_lines]
  by_cases hany : ls.any (key_line_match key)
  · rw [if_pos hany]
    cases ls with
    | nil => cases h rfl
    | cons x xs =>
      rw [replaceFirst]
      by_cases hx : key_line_match key x <;> simp [hx]
  · rw [if_neg hany]
    simp

lemma upsert_lines_idem {key v : Str}
    (hm : key_line_match key (tfvar_line key v) = true) (ls : List Str) :
    upsert_lines key v (upsert_lines key v ls) = upsert_lines key v ls := by
  by_cases hany : ls.any (key_line_match key)
  · have h1 : upsert_lines key v ls =
        replaceFirst (key_line_match key) (tfvar_line key v) ls := by
      rw [upsert_lines, if_pos hany]
    rw [h1]
    have h2 := replaceFirst_any hm ls hany
    rw [upsert_lines, if_pos h2]
    exact replaceFirst_idem hm ls
  · have h1 : upsert_lines key v ls = ls ++ [tfvar_line key v] := by
      rw [upsert_lines, if_neg hany]
    have hany2 : (ls ++ [tfvar_line key v]).any (key_line_match key) = true := by
      simp [hm]
    rw [h1, upsert_lines, if_pos hany2]
    refine replaceFirst_append_no_match hm ls ?_
    intro x hx
    by_contra hfx
    have : ls.any (key_line_match key) = true :=
      List.any_eq_true.mpr ⟨x, hx, by simpa using hfx⟩
    exact hany this

lemma mem_join_nl : ∀ (ls : List Str) (c : Char), c ∈ join_nl ls →
    c = '\n' ∨ ∃ l ∈ ls, c ∈ l := by
  intro ls
  induction ls with
  | nil => intro c hc; cases hc
  | cons l rest ih =>
    intro c hc
    cases rest with
    | nil =>
      exact Or.inr ⟨l, List.mem_cons_self l [], hc⟩
    | cons l2 rest' =>
      have hj : join_nl (l :: l2 :: rest') = l ++ '\n' :: join_nl (l2 :: rest') := by
        simp [join_nl, joinSep]
      rw [hj] at hc
      rcases List.mem_append.mp hc with h | h
      · exact Or.inr ⟨l, List.mem_cons_self l _, h⟩
      · rcases List.mem_cons.mp h with rfl | h'
        · exact Or.inl rfl
        · rcases ih c h' with h2 | ⟨l', hl', hc'⟩
          · exact Or.inl h2
          · exact Or.inr ⟨l', List.mem_cons_of_mem l hl', hc'⟩

lemma mem_tfvar_line {key v : Str} {c : Char} (h : c ∈ tfvar_line key v) :
    c ∈ key ∨ c ∈ v ∨ c ∈ str " = \"" ∨ c ∈ str "\"" := by
  rw [tfvar_line_eq] at h
  rcases List.mem_append.mp h with h | h
  · exact Or.inl h
  · rcases List.mem_append.mp h with h | h
    · exact Or.inr (Or.inr (Or.inl h))
    · rcases List.mem_append.mp h with h | h
      · exact Or.inr (Or.inl h)
      · exact Or.inr (Or.inr (Or.inr h))

/-- C1: on the spec-modelled General Variables File upsert, applying the
same key/value twice produces a file byte-identical to applying it once
(for any initial content), and on any line list containing a matching
line the upsert replaces exactly the first matching line, leaving every
other line verbatim and in its original position. -/
theorem upsert_tfvars_idempotent_replaces_line (key v : Str)
    (hkey : key ≠ []) (hws : ∀ c ∈ key, isPyWs c = false)
    (hvn : '\n' ∉ v) (hvr : '\r' ∉ v) :
    (∀ content : Str,
      upsert_tfvars key v (upsert_tfvars key v content) = upsert_tfvars key v content) ∧
    (∀ ls : List Str, ls.any (key_line_match key) = true →
      upsert_lines key v ls = ls.set (ls.findIdx (key_line_match key)) (tfvar_line key v)) := by
  have hm : key_line_match key (tfvar_line key v) = true :=
    key_line_match_tfvar key v hkey hws
  have htf : ∀ c ∈ tfvar_line key v, c ≠ '\n' ∧ c ≠ '\r' := by
    intro c hc
    rcases mem_tfvar_line hc with h | h | h | h
    · have := hws c h
      constructor <;> rintro rfl <;> simp [isPyWs] at this
    · exact ⟨fun he => hvn (he ▸ h), fun he => hvr (he ▸ h)⟩
    · exact (show ∀ x ∈ str " = \"", x ≠ '\n' ∧ x ≠ '\r' by decide) c h
    · exact (show ∀ x ∈ str "\"", x ≠ '\n' ∧ x ≠ '\r' by decide) c h
  constructor
  · intro content
    set ls0 := split_nl (normalize_newlines content) with hls0
    set L := upsert_lines key v ls0 with hL
    have hLne : L ≠ [] := upsert_lines_ne_nil (split_nl_ne_nil _)
    have hLn : ∀ l ∈ L, '\n' ∉ l := by
      intro l hl hc
      rcases mem_upsert_lines ls0 hl with h | rfl
      · exact (mem_split_nl _ l h '\n' hc).2 rfl
      · exact (htf '\n' hc).1 rfl
    have hLr : ∀ l ∈ L, '\r' ∉ l := by
      intro l hl hc
      rcases mem_upsert_lines ls0 hl with h | rfl
      · have h2 := (mem_split_nl _ l h '\r' hc).1
        rw [normalize_newlines] at h2
        have := (List.mem_filter.mp h2).2
        simp at this
      · exact (htf '\r' hc).2 rfl
    have hnorm : normalize_newlines (join_nl L) = join_nl L := by
      rw [normalize_newlines]
      rw [List.filter_eq_self]
      intro c hc
      rcases mem_join_nl L c hc with rfl | ⟨l, hl, hcl⟩
      · simp
      · simp only [decide_eq_true_eq]
        exact fun he => hLr l hl (he ▸ hcl)
    have hsplit : split_nl (join_nl L) = L := split_join_nl L hLne hLn
    show join_nl (upsert_lines key v (split_nl (normalize_newlines (join_nl L)))) = join_nl L
    rw [hnorm, hsplit, hL, upsert_lines_idem hm ls0]
  · intro ls h
    rw [upsert_lines, if_pos h]
    exact replaceFirst_eq_set ls h

/-- C1 (witness): upserting `b = "9"` twice into a concrete two-line file
is byte-identical to doing it once, and the upsert on a matching line
list is exactly a single-position replacement. -/
theorem upsert_tfvars_idempotent_witness :
    upsert_tfvars (str "b") (str "9")
        (upsert_tfvars (str "b") (str "9") (str "a = 1\r\nb = 2")) =
      upsert_tfvars (str "b") (str "9") (str "a = 1\r\nb = 2") ∧
    upsert_lines (str "b") (str "9") [str "a = 1", str "b = 2"] =
      ([str "a = 1", str "b = 2"]).set
        (([str "a = 1", str "b = 2"]).findIdx (key_line_match (str "b")))
        (tfvar_line (str "b") (str "9")) :=
  ⟨(upsert_tfvars_idempotent_replaces_line (str "b") (str "9")
      (by decide) (by decide) (by decide) (by decide)).1 _,
   (upsert_tfvars_idempotent_replaces_line (str "b") (str "9")
      (by decide) (by decide) (by decide) (by decide)).2 _ (by decide)⟩

/-! ### C2: infra-directory resolution -/

lemma foldl_min_mem (f : α → Nat) : ∀ (as : List α) (a : α),
    as.foldl (fun b x => if f x < f b then x else b) a ∈ a :: as := by
  intro as
  induction as with
  | nil => intro a; exact List.mem_cons_self a []
  | cons a' as' ih =>
    intro a
    rw [List.foldl_cons]
    by_cases h : f a' < f a
    · rw [if_pos h]
      exact List.mem_cons_of_mem a (ih a')
    · rw [if_neg h]
      rcases List.mem_cons.mp (ih a) with h2 | h2
      · rw [h2]; exact List.mem_cons_self a _
      · exact List.mem_cons_of_mem a (List.mem_cons_of_mem a' h2)

lemma foldl_min_le (f : α → Nat) : ∀ (as : List α) (a : α),
    f (as.foldl (fun b x => if f x < f b then x else b) a) ≤ f a ∧
    ∀ y ∈ as, f (as.foldl (fun b x => if f x < f b then x else b) a) ≤ f y := by
  intro as
  induction as with
  | nil => intro a; exact ⟨Nat.le_refl _, fun y hy => absurd hy (List.not_mem_nil y)⟩
  | cons a' as' ih =>
    intro a
    rw [List.foldl_cons]
    by_cases h : f a' < f a
    · rw [if_pos h]
      obtain ⟨h1, h2⟩ := ih a'
      refine ⟨Nat.le_trans h1 (Nat.le_of_lt h), fun y hy => ?_⟩
      rcases List.mem_cons.mp hy with rfl | hy'
      · exact h1
      · exact h2 y hy'
    · rw [if_neg h]
      obtain ⟨h1, h2⟩ := ih a
      refine ⟨h1, fun y hy => ?_⟩
      rcases List.mem_cons.mp hy with rfl | hy'
      · exact Nat.le_trans h1 (Nat.le_of_not_lt h)
      · exact h2 y hy'

lemma minByKey_none (f : α → Nat) (l : List α) : minByKey f l = none ↔ l = [] := by
  cases l <;> simp [minByKey]

lemma minByKey_spec (f : α → Nat) (l : List α) (x : α) (h : minByKey f l = some x) :
    x ∈ l ∧ ∀ y ∈ l, f x ≤ f y := by
  cases l with
  | nil => cases h
  | cons a as =>
    rw [minByKey] at h
    injection h with h
    subst h
    refine ⟨foldl_min_mem f as a, fun y hy => ?_⟩
    obtain ⟨h1, h2⟩ := foldl_min_le f as a
    rcases List.mem_cons.mp hy with rfl | hy'
    · exact h1
    · exact h2 y hy'

/-- C2 (amended): when a common directory holds both scripts, the
resolver returns the common directory with the shortest path string and
both scripts in it; when no common directory exists, it returns the
setup.sh match with the shortest path string, paired with the destroy.sh
candidate minimizing the symmetric path-distance metric; and it fails
when either filename is entirely absent after the exclusion filter. -/
theorem find_infra_dir_resolution (tree : List RPath) :
    (setup_candidates tree = [] →
      find_infra_dir tree = Except.error (str "Could not find setup.sh")) ∧
    (setup_candidates tree ≠ [] → destroy_candidates tree = [] →
      find_infra_dir tree = Except.error (str "Could not find destroy.sh")) ∧
    (common_dirs tree ≠ [] →
      ∃ infra, find_infra_dir tree =
          Except.ok (infra, infra ++ [str "setup.sh"], infra ++ [str "destroy.sh"]) ∧
        infra ∈ common_dirs tree ∧ ∀ c ∈ common_dirs tree, strLenP infra ≤ strLenP c) ∧
    (common_dirs tree = [] → setup_candidates tree ≠ [] → destroy_candidates tree ≠ [] →
      ∃ s d, find_infra_dir tree = Except.ok (s.dropLast, s, d) ∧
        s ∈ setup_candidates tree ∧
        (∀ s' ∈ setup_candidates tree, strLenP s ≤ strLenP s') ∧
        d ∈ destroy_candidates tree ∧
        (∀ d' ∈ destroy_candidates tree,
          path_distance s.dropLast d.dropLast ≤ path_distance s.dropLast d'.dropLast)) := by
  refine ⟨?_, ?_, ?_, ?_⟩
  · intro h
    have h1 : minByKey strLenP (setup_candidates tree) = none := (minByKey_none _ _).mpr h
    rw [find_infra_dir, h1]
  · intro hs hd
    have h2 : minByKey strLenP (destroy_candidates tree) = none := (minByKey_none _ _).mpr hd
    cases hs0 : minByKey strLenP (setup_candidates tree) with
    | none => exact absurd ((minByKey_none _ _).mp hs0) hs
    | some s0 => rw [find_infra_dir, hs0, h2]
  · intro hc
    have hsne : setup_candidates tree ≠ [] := by
      intro h0
      apply hc
      simp [common_dirs, h0]
    have hdne : destroy_candidates tree ≠ [] := by
      intro h0
      apply hc
      simp [common_dirs, h0]
    cases hs0 : minByKey strLenP (setup_candidates tree) with
    | none => exact absurd ((minByKey_none _ _).mp hs0) hsne
    | some s0 =>
    cases hd0 : minByKey strLenP (destroy_candidates tree) with
    | none => exact absurd ((minByKey_none _ _).mp hd0) hdne
    | some d0 =>
    cases hi : minByKey strLenP (common_dirs tree) with
    | none => exact absurd ((minByKey_none _ _).mp hi) hc
    | some infra =>
    obtain ⟨hmem, hle⟩ := minByKey_spec _ _ _ hi
    exact ⟨infra, by rw [find_infra_dir, hs0, hd0, hi], hmem, hle⟩
  · intro hc hs hd
    cases hs0 : minByKey strLenP (setup_candidates tree) with
    | none => exact absurd ((minByKey_none _ _).mp hs0) hs
    | some s0 =>
    cases hd0 : minByKey strLenP (destroy_candidates tree) with
    | none => exact absurd ((minByKey_none _ _).mp hd0) hd
    | some d0 =>
    have hcom : minByKey strLenP (common_dirs tree) = none := (minByKey_none _ _).mpr hc
    cases hdm : minByKey (fun d => path_distance s0.dropLast d.dropLast)
        (destroy_candidates tree) with
    | none => exact absurd ((minByKey_none _ _).mp hdm) hd
    | some dmin =>
    obtain ⟨hsmem, hsle⟩ := minByKey_spec _ _ _ hs0
    obtain ⟨hdmem, hdle⟩ := minByKey_spec _ _ _ hdm
    refine ⟨s0, dmin, ?_, hsmem, hsle, hdmem, hdle⟩
    rw [find_infra_dir, hs0, hd0, hcom]
    simp only [hdm]

/-- C2 (counterexample): with no common directory, the resolver does not
pick the shallowest-path setup.sh match: it picks the shortest path
string. Here the two-segment candidate is shallower, yet the resolver
returns the four-segment one because its path string is shorter. -/
theorem find_infra_dir_not_shallowest :
    find_infra_dir
        [[str "averyverylongdirname", str "setup.sh"],
         [str "a", str "b", str "c", str "setup.sh"],
         [str "x", str "destroy.sh"]] =
      Except.ok ([str "a", str "b", str "c"],
        [str "a", str "b", str "c", str "setup.sh"], [str "x", str "destroy.sh"]) ∧
    [str "averyverylongdirname", str "setup.sh"] ∈ setup_candidates
        [[str "averyverylongdirname", str "setup.sh"],
         [str "a", str "b", str "c", str "setup.sh"],
         [str "x", str "destroy.sh"]] ∧
    ([str "averyverylongdirname", str "setup.sh"] : RPath).length <
      ([str "a", str "b", str "c", str "setup.sh"] : RPath).length := by
  refine ⟨by rfl, by decide, by decide⟩

/-- C2 (witness): the amended resolution policy at concrete trees — a
tree with a common directory, the no-common tree, and the empty tree. -/
theorem find_infra_dir_resolution_witness :
    (∃ infra, find_infra_dir [[str "infra", str "setup.sh"], [str "infra", str "destroy.sh"]] =
        Except.ok (infra, infra ++ [str "setup.sh"], infra ++ [str "destroy.sh"]) ∧
      infra ∈ common_dirs [[str "infra", str "setup.sh"], [str "infra", str "destroy.sh"]] ∧
      ∀ c ∈ common_dirs [[str "infra", str "setup.sh"], [str "infra", str "destroy.sh"]],
        strLenP infra ≤ strLenP c) ∧
    (∃ s d, find_infra_dir
          [[str "averyverylongdirname", str "setup.sh"],
           [str "a", str "b", str "c", str "setup.sh"],
           [str "x", str "destroy.sh"]] = Except.ok (s.dropLast, s, d) ∧
        s ∈ setup_candidates
          [[str "averyverylongdirname", str "setup.sh"],
           [str "a", str "b", str "c", str "setup.sh"],
           [str "x", str "destroy.sh"]] ∧
        (∀ s' ∈ setup_candidates
          [[str "averyverylongdirname", str "setup.sh"],
           [str "a", str "b", str "c", str "setup.sh"],
           [str "x", str "destroy.sh"]], strLenP s ≤ strLenP s') ∧
        d ∈ destroy_candidates
          [[str "averyverylongdirname", str "setup.sh"],
           [str "a", str "b", str "c", str "setup.sh"],
           [str "x", str "destroy.sh"]] ∧
        (∀ d' ∈ destroy_candidates
          [[str "averyverylongdirname", str "setup.sh"],
           [str "a", str "b", str "c", str "setup.sh"],
           [str "x", str "destroy.sh"]],
          path_distance s.dropLast d.dropLast ≤ path_distance s.dropLast d'.dropLast)) ∧
    find_infra_dir [] = Except.error (str "Could not find setup.sh") :=
  ⟨(find_infra_dir_resolution _).2.2.1 (by decide),
   (find_infra_dir_resolution _).2.2.2 (by decide) (by decide) (by decide),
   (find_infra_dir_resolution []).1 rfl⟩
